import Mathlib

/-!
Verification of the lishex-mcts search core against its specification.

The development shallowly embeds the arena allocator (src/arena.h), the MCTS
engine helpers (src/mcts.cpp) and the alpha-beta engine (src/search.cpp).
External collaborators that live outside src/ (board.h, order.cpp, threads.h,
sgd.cpp) are modelled as oracle fields or from the spec, as indicated by doc
comments.  Machine doubles are modelled as rationals; machine addresses are
modelled as byte offsets from the (max-aligned) arena base.
-/

namespace Lishex

/-- Constant from src/mcts.cpp line 20: the rollout budget. -/
def ROLLOUT_BUDGET : ℕ := 3

/-- Modelled from the spec: MAX_DEPTH = 64 (types.h is not under src/). -/
def MAX_DEPTH : ℕ := 64

/-- Modelled from the spec: the mate score sentinel oo = MATE_SCORE = 30000
(types.h is not under src/). -/
def oo : ℤ := 30000

/-- Modelled from the spec: the NULL_MOVE sentinel, a reserved move value
(types.h is not under src/); moves are modelled as naturals with NULLMV = 0,
matching the zero-initialisation used for move arrays in search.cpp. -/
def NULLMV : ℕ := 0

/-- Alignment of every arena allocation: alignof(std::max_align_t) on the
x86-64 target, i.e. 16 bytes (src/arena.h line 49). -/
def ALIGN : ℕ := 16

/-! ## Arena allocator (src/arena.h)

The buffer base returned by malloc is max-aligned, so pointers are modelled
as byte offsets from the base.  An `Arena` value carries the cursor `m_size`
and the capacity `m_capacity` in bytes. -/

structure Arena where
  m_size : ℕ
  m_capacity : ℕ
deriving DecidableEq

/-- Constructor Arena(reserved_MB) (src/arena.h lines 7-14): capacity is
reserved_MB shifted left by 20, cursor starts at 0. -/
def Arena.construct (reserved_MB : ℕ) : Arena :=
  ⟨0, reserved_MB * 2 ^ 20⟩

/-- Fresh arena of a given capacity in bytes (what Arena::Arena produces for
that capacity, address space aside). -/
def freshArena (capacity : ℕ) : Arena :=
  ⟨0, capacity⟩

/-- Arena::size (src/arena.h lines 27-29). -/
def Arena.size (a : Arena) : ℕ := a.m_size

/-- Arena::has_space (src/arena.h lines 31-33): m_size + requested < m_capacity. -/
def Arena.has_space (a : Arena) (requested : ℕ) : Bool :=
  a.m_size + requested < a.m_capacity

/-- Round an offset up to the next multiple of ALIGN (what std::align does to
the cursor pointer, src/arena.h line 55). -/
def alignUp (n : ℕ) : ℕ :=
  ((n + ALIGN - 1) / ALIGN) * ALIGN

/-- Arena::allocate (src/arena.h lines 48-65).  std::align succeeds iff the
padding plus the request fits in the remaining space; the code's extra
`space < requested` re-check is then dead.  On success the cursor advances by
padding + requested and the aligned offset is returned. -/
def Arena.allocate (a : Arena) (requested : ℕ) : Option (ℕ × Arena) :=
  let space := a.m_capacity - a.m_size
  let aligned := alignUp a.m_size
  let pad := aligned - a.m_size
  if pad + requested ≤ space then
    some (aligned, ⟨a.m_size + pad + requested, a.m_capacity⟩)
  else
    none

/-- Arena::reset (src/arena.h lines 67-69): m_size := 0. -/
def Arena.reset (a : Arena) : Arena :=
  ⟨0, a.m_capacity⟩

/-- One external call on an arena: an allocation request or a reset. -/
inductive ArenaOp where
  | alloc (k : ℕ)
  | reset
deriving DecidableEq

/-- Effect of one call on the arena state (a failed allocation leaves the
arena unchanged, src/arena.h line 64). -/
def Arena.step (a : Arena) : ArenaOp → Arena
  | .alloc k =>
    match a.allocate k with
    | some (_, a') => a'
    | none => a
  | .reset => a.reset

/-- Run a sequence of arena calls. -/
def Arena.run (a : Arena) (ops : List ArenaOp) : Arena :=
  ops.foldl Arena.step a

lemma alignUp_ge (n : ℕ) : n ≤ alignUp n := by
  unfold alignUp ALIGN
  omega

lemma Arena.allocate_some {a : Arena} {k p : ℕ} {a' : Arena}
    (h : a.allocate k = some (p, a')) :
    p = alignUp a.m_size ∧
    a'.m_size = a.m_size + (alignUp a.m_size - a.m_size) + k ∧
    a'.m_capacity = a.m_capacity ∧
    (alignUp a.m_size - a.m_size) + k ≤ a.m_capacity - a.m_size := by
  unfold Arena.allocate at h
  by_cases hc : (alignUp a.m_size - a.m_size) + k ≤ a.m_capacity - a.m_size
  · simp only [hc, if_pos] at h
    cases h
    exact ⟨rfl, rfl, rfl, hc⟩
  · simp only [hc, if_neg, if_false] at h
    cases h

lemma Arena.step_capacity (a : Arena) (op : ArenaOp) :
    (a.step op).m_capacity = a.m_capacity := by
  cases op with
  | alloc k =>
    unfold Arena.step
    cases hh : a.allocate k with
    | none => simp [hh]
    | some pa =>
      obtain ⟨p, a'⟩ := pa
      have := Arena.allocate_some hh
      simp [hh, this.2.2.1]
  | reset => rfl

lemma Arena.step_size_le (a : Arena) (op : ArenaOp)
    (h : a.m_size ≤ a.m_capacity) :
    (a.step op).m_size ≤ (a.step op).m_capacity := by
  cases op with
  | alloc k =>
    unfold Arena.step
    cases hh : a.allocate k with
    | none => simpa [hh] using h
    | some pa =>
      obtain ⟨p, a'⟩ := pa
      obtain ⟨_, hsz, hcap, hle⟩ := Arena.allocate_some hh
      simp only [hh]
      rw [hsz, hcap]
      omega
  | reset =>
    simp [Arena.step, Arena.reset]

lemma Arena.run_size_le (ops : List ArenaOp) (a : Arena)
    (h : a.m_size ≤ a.m_capacity) :
    (a.run ops).m_size ≤ (a.run ops).m_capacity := by
  induction ops generalizing a with
  | nil => simpa [Arena.run] using h
  | cons op rest ih =>
    have hstep := Arena.step_size_le a op h
    simpa [Arena.run, List.foldl_cons] using ih (a.step op) hstep

lemma Arena.run_capacity (ops : List ArenaOp) (a : Arena) :
    (a.run ops).m_capacity = a.m_capacity := by
  induction ops generalizing a with
  | nil => rfl
  | cons op rest ih =>
    have := Arena.step_capacity a op
    simp only [Arena.run, List.foldl_cons] at *
    rw [ih (a.step op), this]

lemma alignUp_mod (n : ℕ) : alignUp n % ALIGN = 0 := by
  unfold alignUp
  exact Nat.mul_mod_left _ _

/-! ## MCTS node statistics and backpropagation (src/mcts.cpp)

`visits` and `total_reward` are the mutable statistics of a tree node
(src/mcts.cpp lines 71-73); the double `total_reward` is modelled as a
rational.  The chain of ancestors of a node (the node itself first, the root
last) is modelled as a list, mirroring the parent-pointer walk of
`backprop`. -/

structure NodeStats where
  visits : ℕ
  total_reward : ℚ
deriving DecidableEq

/-- Node::update (src/mcts.cpp lines 284-293): visits += 1,
total_reward += reward. -/
def NodeStats.update (n : NodeStats) (reward : ℚ) : NodeStats :=
  ⟨n.visits + 1, n.total_reward + reward⟩

/-- backprop (src/mcts.cpp lines 217-232): walk the ancestor chain; at every
step multiply the reward by -1 first, then apply Node::update, then move to
the parent. -/
def backprop (reward : ℚ) : List NodeStats → List NodeStats
  | [] => []
  | n :: ancestors =>
    let r := -reward
    n.update r :: backprop r ancestors

lemma backprop_length (reward : ℚ) (path : List NodeStats) :
    (backprop reward path).length = path.length := by
  induction path generalizing reward with
  | nil => rfl
  | cons n rest ih => simp [backprop, ih]

lemma backprop_getD (reward : ℚ) (path : List NodeStats) (k : ℕ)
    (hk : k < path.length) :
    (backprop reward path).getD k ⟨0, 0⟩ =
      (path.getD k ⟨0, 0⟩).update ((-1) ^ (k + 1) * reward) := by
  induction path generalizing reward k with
  | nil => exact absurd hk (by simp)
  | cons n rest ih =>
    cases k with
    | zero =>
      simp [backprop, NodeStats.update]
    | succ k =>
      have hk' : k < rest.length := by simpa using hk
      have := ih (-reward) k hk'
      simp only [backprop, List.getD_cons_succ]
      rw [this]
      congr 1
      ring

/-! ## The chess oracle

The MCTS helpers consume the external Position capability (spec section 6.1;
board.h is not under src/).  A `Chess B` value packages those externals over
an abstract board type `B`.  `makeMove` returns the updated board on a legal
move and `none` when the move is rejected (in which case the C++ board is
restored, so the caller's board is unchanged).  `wp` is winning_prob from
sgd.cpp (not under src/), modelled from the spec as an abstract map from
centipawns to a probability, with doubles as rationals. -/

structure Chess (B : Type) where
  genMoves : B → List ℕ
  makeMove : B → ℕ → Option B
  inCheck : B → ℕ → Bool
  turn : B → ℕ
  ply : B → ℕ
  evaluate : B → ℤ
  wp : ℤ → ℚ

/-- The searchinfo_t counters the MCTS engine writes in expand
(src/mcts.cpp lines 413-414): tree node count and selective depth. -/
structure MInfo where
  nodes : ℕ
  seldepth : ℕ
deriving DecidableEq

/-- play_legal (src/mcts.cpp lines 371-386): sample a move from the list via
the policy; on an illegal move erase it and resample, returning NULLMV (here
`none`) when the list runs out.  The returned list is the (possibly pruned)
move list; the fuel is one more than the list length, which the erase-driven
shrinking never exhausts for policies that pick a list element.  The C++ has
undefined behaviour when first called on an empty list (rand_uint64() % 0);
the model returns `none` there. -/
def playLegalFuel {B : Type} (C : Chess B) (pol : List ℕ → B → ℕ) :
    ℕ → B → List ℕ → Option (ℕ × B) × List ℕ
  | 0, _, moves => (none, moves)
  | fuel + 1, s, moves =>
    let a := pol moves s
    match C.makeMove s a with
    | some s' => (some (a, s'), moves)
    | none =>
      let moves' := moves.erase a
      if moves'.length = 0 then (none, moves')
      else playLegalFuel C pol fuel s moves'

/-- play_legal with its canonical fuel. -/
def play_legal {B : Type} (C : Chess B) (pol : List ℕ → B → ℕ)
    (s : B) (moves : List ℕ) : Option (ℕ × B) × List ℕ :=
  playLegalFuel C pol (moves.length + 1) s moves

/-- The do-while rollout loop of simulate (src/mcts.cpp lines 438-442):
one body execution generates moves and attempts one legal ply via
play_legal; the loop repeats while a ply was played and the post-decremented
budget was still positive.  Returns the final state, whether the loop ended
because no legal move remained (a == NULLMV), and the number of legal plies
played. -/
def rolloutLoop {B : Type} (C : Chess B) (pol : List ℕ → B → ℕ) :
    ℕ → B → B × Bool × ℕ
  | budget, s =>
    match (play_legal C pol s (C.genMoves s)).1 with
    | none => (s, true, 0)
    | some (_, s') =>
      match budget with
      | 0 => (s', false, 1)
      | b + 1 =>
        let r := rolloutLoop C pol b s'
        (r.1, r.2.1, r.2.2 + 1)

/-- simulate (src/mcts.cpp lines 429-464).  `color` is the side to move at
entry; when the rollout ended with no legal move the reward is decided by
check tests against `color` (not against the terminal side to move); when the
budget ran out the static evaluation at the rollout leaf is sign-adjusted to
the entry side and mapped through 2*winning_prob(score) - 1. -/
def simulate {B : Type} (C : Chess B) (pol : List ℕ → B → ℕ) (s : B) : ℚ :=
  let color := C.turn s
  match rolloutLoop C pol ROLLOUT_BUDGET s with
  | (t, true, _) =>
    if C.inCheck t color then -1
    else if C.inCheck t (color ^^^ 1) then 1
    else 0
  | (t, false, _) =>
    let score := C.evaluate t
    let score := score * (2 * (if C.turn t = color then (1 : ℤ) else 0) - 1)
    2 * C.wp score - 1

/-- Number of legal plies played by one call to simulate. -/
def simulatePlies {B : Type} (C : Chess B) (pol : List ℕ → B → ℕ) (s : B) : ℕ :=
  (rolloutLoop C pol ROLLOUT_BUDGET s).2.2

lemma rolloutLoop_plies_le {B : Type} (C : Chess B) (pol : List ℕ → B → ℕ)
    (budget : ℕ) (s : B) :
    (rolloutLoop C pol budget s).2.2 ≤ budget + 1 := by
  induction budget generalizing s with
  | zero =>
    unfold rolloutLoop
    cases hh : (play_legal C pol s (C.genMoves s)).1 with
    | none => simp [hh]
    | some p => simp [hh]
  | succ b ih =>
    unfold rolloutLoop
    cases hh : (play_legal C pol s (C.genMoves s)).1 with
    | none => simp [hh]
    | some p =>
      obtain ⟨a, s'⟩ := p
      have := ih s'
      simp only [hh]
      omega

/-! ## best_child without the exploration term (src/mcts.cpp lines 245-264)

With exploration off, UCB(c) = total_reward / (visits + 1) (src/mcts.cpp
lines 234-242), a rational.  best_child scans the children left to right,
keeping the first child whose UCB strictly exceeds the running best, which
starts at (double)INT_MIN with a null best pointer; the C++ then asserts
best != nullptr and returns best, so an empty children list yields a null
pointer (a failed assertion in debug builds). -/

structure ChildStats where
  a : ℕ
  visits : ℕ
  total_reward : ℚ
deriving DecidableEq

/-- Node::UCB with exploration_mode = false (src/mcts.cpp lines 234-242). -/
def ucbExploit (c : ChildStats) : ℚ :=
  c.total_reward / (c.visits + 1)

/-- The initial best_value, (double)INT_MIN (src/mcts.cpp line 248). -/
def INT_MIN_Q : ℚ := -(2 ^ 31)

/-- Node::best_child(false) (src/mcts.cpp lines 245-264), returning `none`
exactly where the C++ returns a null pointer. -/
def bestChildExploit (children : List ChildStats) : Option ChildStats :=
  (children.foldl
    (fun acc c => if ucbExploit c > acc.1 then (ucbExploit c, some c) else acc)
    (INT_MIN_Q, none)).2

/-! ## expand and the arena-OOM guard (src/mcts.cpp lines 396-419)

For expand only a node's own data matters: its untried move list and its
child count (which decide is_terminal and is_fully_expanded, src/mcts.cpp
lines 55-62).  `expand` returns the updated node, arena, board, and the
action of the newly inserted child if one was created.  On success,
insert_child (src/mcts.cpp lines 266-282) allocates from the arena, erases
the move from untried_moves and appends the child. -/

structure NodeLite where
  untried : List ℕ
  nchildren : ℕ
deriving DecidableEq

/-- Node::is_fully_expanded (src/mcts.cpp lines 59-62). -/
def NodeLite.isFullyExpanded (n : NodeLite) : Bool :=
  n.untried.length = 0

/-- Node::is_terminal (src/mcts.cpp lines 55-57). -/
def NodeLite.isTerminal (n : NodeLite) : Bool :=
  n.nchildren = 0 && n.isFullyExpanded

/-- Size in bytes of one tree Node; sizeof(Node) depends on the toolchain, so
it is kept as a named constant used symbolically by expand. -/
def sizeofNode : ℕ := 96

/-- expand (src/mcts.cpp lines 396-419).  Terminal or fully expanded nodes
are returned unchanged; then the arena is checked for space (`has_space`)
before anything is touched; otherwise one legal move is played via
play_legal (which prunes illegal moves from untried_moves in place) and on
success insert_child allocates the child and records it. -/
def expand {B : Type} (C : Chess B) (pol : List ℕ → B → ℕ)
    (nd : NodeLite) (ar : Arena) (s : B) (info : MInfo) :
    NodeLite × Arena × B × MInfo × Option ℕ :=
  if nd.isTerminal || nd.isFullyExpanded then (nd, ar, s, info, none)
  else if !(ar.has_space sizeofNode) then (nd, ar, s, info, none)
  else
    match play_legal C pol s nd.untried with
    | (none, rest) => ({ nd with untried := rest }, ar, s, info, none)
    | (some (a, s'), rest) =>
      let info' : MInfo := ⟨info.nodes + 1, max info.seldepth (C.ply s')⟩
      let ar' := match ar.allocate sizeofNode with
                 | some (_, ar2) => ar2
                 | none => ar
      (⟨(rest.erase a), nd.nchildren + 1⟩, ar', s', info', some a)

/-! ## MCTS_Search board frame (src/mcts.cpp lines 501-586)

MCTS_Search clears the search info, sets board->ply = 0, snapshots the board
into root_board, and then runs the search loop; every iteration mutates the
board (selection, expansion, simulation) and ends with *board = root_board.
The board mutation performed by one iteration body is abstracted as a
function; the restore discards it regardless.  The code after the loop never
writes the board. -/

structure Board where
  turn : ℕ
  ply : ℕ
  fiftyMove : ℕ
  historyH : List ℤ
  rest : ℕ
deriving DecidableEq

/-- The MCTS search loop's effect on the board (src/mcts.cpp lines 525-544):
`iters` iterations, each applying the body's board mutation `mutf` and then
restoring the snapshot. -/
def mctsBoardLoop (mutf : ℕ → Board → Board) : ℕ → Board → Board → Board
  | 0, cur, _ => cur
  | n + 1, cur, root =>
    let mutated := mutf n cur
    let restored := (fun _ => root) mutated
    mctsBoardLoop mutf n restored root

/-- MCTS_Search's overall effect on the board (src/mcts.cpp lines 507-544):
ply := 0, snapshot, loop with per-iteration restore; the epilogue (best
child, output, tree teardown, arena reset) does not touch the board. -/
def MCTS_Search_board (b : Board) (mutf : ℕ → Board → Board) (iters : ℕ) :
    Board :=
  let b0 := { b with ply := 0 }
  mctsBoardLoop mutf iters b0 b0

lemma mctsBoardLoop_eq (mutf : ℕ → Board → Board) (n : ℕ) (root : Board) :
    ∀ cur, mctsBoardLoop mutf n cur root = if n = 0 then cur else root := by
  induction n with
  | zero => intro cur; rfl
  | succ m ih =>
    intro cur
    unfold mctsBoardLoop
    rw [ih root]
    by_cases hm : m = 0 <;> simp [hm]

/-! ## init_search (src/search.cpp lines 222-251) and the search stack

A stack entry holds two killer moves and a cached static score
(stack_t of search.h, used at src/search.cpp lines 134, 123, 279).
The clearing loop of init_search (lines 244-247) iterates MAX_DEPTH times
but writes through the base pointer `s` without indexing by the loop
variable, so only entry 0 is ever written. -/

structure StackEntry where
  killer0 : ℕ
  killer1 : ℕ
  score : ℤ
deriving DecidableEq

/-- One iteration of the clearing loop body (src/search.cpp lines 245-246):
s->killer[0] = s->killer[1] = NULLMV; s->score = 0 — i.e. entry 0 is
overwritten. -/
def clearStackBody (st : List StackEntry) : List StackEntry :=
  match st with
  | [] => []
  | _ :: rest => ⟨NULLMV, NULLMV, 0⟩ :: rest

/-- The clearing loop of init_search (src/search.cpp lines 244-247): the
body runs MAX_DEPTH times, the index is never used. -/
def clearStackLoop : ℕ → List StackEntry → List StackEntry
  | 0, st => st
  | n + 1, st => clearStackLoop n (clearStackBody st)

/-- The board-side effect of init_search (src/search.cpp lines 224-231 and
249-250): every history-heuristic entry is divided by 16 (C++ int division)
and board->ply is set to 0. -/
def init_search_board (b : Board) : Board :=
  { b with historyH := b.historyH.map (fun h => Int.tdiv h 16), ply := 0 }

/-! ## Alpha-beta engine state (src/search.cpp)

`Info` models the searchinfo_t counters the engine writes (threads.h is not
under src/; the record layout follows the spec's SearchInfo).  `PVLine`
models pv_line (src/search.cpp lines 52-69); the pv table is the list of
rows pv_tb (line 74).  `SState` bundles the state a negamax call threads:
the board, the info record, the search stack and the pv table. -/

structure Info where
  nodes : ℕ
  seldepth : ℤ
  fail_high : ℕ
  fail_high_first : ℕ
deriving DecidableEq

structure PVLine where
  moves : List ℕ
  size : ℕ
deriving DecidableEq

/-- A cleared pv_line (src/search.cpp line 55): zeroed move array, size 0. -/
def emptyPVLine : PVLine := ⟨List.replicate MAX_DEPTH 0, 0⟩

structure SState (B : Type) where
  board : B
  info : Info
  stack : List StackEntry
  pvtb : List PVLine

/-- The external capabilities negamax and quiescence consume (spec section
6.1; board.h, order.cpp and threads.h are not under src/).  `scoreMovesN`
and `scoreMovesQ` are the integer move-ordering priorities of score_moves
(order.cpp, modelled from the spec: score_moves annotates each generated
move with an integer priority; the negamax call site passes the current
ply's killers, the quiescence call site passes none).  `stopped` is
search_stopped(info). -/
structure Engine (B : Type) where
  genMoves : B → List ℕ
  genNoisy : B → List ℕ
  makeMove : B → ℕ → Option B
  undoMove : B → ℕ → B
  inCheck : B → ℕ → Bool
  isRep : B → Bool
  evaluate : B → ℤ
  turn : B → ℕ
  ply : B → ℕ
  fifty : B → ℕ
  scoreMovesN : B → ℕ → ℕ × ℕ → ℤ
  scoreMovesQ : B → ℕ → ℤ
  stopped : Info → Bool

def SState.incNodes {B : Type} (st : SState B) : SState B :=
  { st with info := { st.info with nodes := st.info.nodes + 1 } }

def SState.setSeldepth {B : Type} (st : SState B) (d : ℤ) : SState B :=
  { st with info := { st.info with seldepth := d } }

def SState.setStackScore {B : Type} (st : SState B) (i : ℕ) (sc : ℤ) :
    SState B :=
  let e := st.stack.getD i ⟨NULLMV, NULLMV, 0⟩
  { st with stack := st.stack.set i ⟨e.killer0, e.killer1, sc⟩ }

def SState.setPVSize {B : Type} (st : SState B) (i n : ℕ) : SState B :=
  let row := st.pvtb.getD i emptyPVLine
  { st with pvtb := st.pvtb.set i ⟨row.moves, n⟩ }

def SState.getKillers {B : Type} (st : SState B) (i : ℕ) : ℕ × ℕ :=
  let e := st.stack.getD i ⟨NULLMV, NULLMV, 0⟩
  (e.killer0, e.killer1)

/-- movcpy (src/search.cpp lines 22-24): copy up to n moves, stopping after
copying a zero move (the while condition tests the assigned value).  `i` is
the common offset of the two row pointers passed at the call site. -/
def movcpy : List ℕ → List ℕ → ℕ → ℕ → List ℕ
  | tgt, _, _, 0 => tgt
  | tgt, src, i, n + 1 =>
    let v := src.getD i 0
    let tgt' := tgt.set i v
    if v = 0 then tgt' else movcpy tgt' src (i + 1) n

/-- Helper of nextBest: scan the remaining list keeping the first entry with
the strictly greatest score, returning it and the list without it. -/
def nextBestAux (x : ℕ × ℤ) : List (ℕ × ℤ) → (ℕ × ℤ) × List (ℕ × ℤ)
  | [] => (x, [])
  | y :: ys =>
    if y.2 > x.2 then
      let r := nextBestAux y ys
      (r.1, x :: r.2)
    else
      let r := nextBestAux x ys
      (r.1, y :: r.2)

/-- Modelled from the spec: next_best (order.cpp is not under src/) returns
the highest-scoring unprocessed move and marks it consumed, NULL_MOVE when
none remain; ties keep the first-encountered move. -/
def nextBest : List (ℕ × ℤ) → ℕ × List (ℕ × ℤ)
  | [] => (NULLMV, [])
  | x :: xs =>
    let r := nextBestAux x xs
    (r.1.1, r.2)

/-- Outcome of the negamax move loop: an early return value (fail-high β or
stop 0) or fall-through with the final α and the count of legal moves
searched. -/
structure LoopOut (B : Type) where
  early : Option ℤ
  alpha : ℤ
  searched : ℕ
  st : SState B

/-- Fail-high bookkeeping (src/search.cpp lines 164-168). -/
def recordFailHigh {B : Type} (st : SState B) (searched : ℕ) : SState B :=
  { st with info :=
    { st.info with
      fail_high := st.info.fail_high + 1
      fail_high_first :=
        if searched = 1 then st.info.fail_high_first + 1
        else st.info.fail_high_first } }

/-- PV update at a PV node (src/search.cpp lines 176-179): write the best
move at pv[ply][ply], copy the child line, adopt the child size. -/
def pvUpdate {B : Type} (st : SState B) (plyb mv : ℕ) : SState B :=
  let cur := st.pvtb.getD plyb emptyPVLine
  let nxt := st.pvtb.getD (plyb + 1) emptyPVLine
  let ms := cur.moves.set plyb mv
  let ms2 := movcpy ms nxt.moves (plyb + 1) nxt.size
  { st with pvtb := st.pvtb.set plyb ⟨ms2, nxt.size⟩ }

/-- The negamax move loop (src/search.cpp lines 141-186).  `recf` performs
the recursive call score = -negamax(-β, -α, depth-1, ...); `plyb` is the
entry value of board->ply, to which the pv references are bound.  The fuel
is one more than the move list length, which the loop never exhausts since
nextBest consumes one entry per iteration. -/
def moveLoop {B : Type} (E : Engine B)
    (recf : ℤ → ℤ → SState B → ℤ × SState B) (plyb : ℕ) :
    ℕ → ℤ → ℤ → SState B → List (ℕ × ℤ) → ℕ → ℤ → LoopOut B
  | 0, α, _, st, _, searched, _ => ⟨none, α, searched, st⟩
  | f + 1, α, β, st, moves, searched, bestscore =>
    let nb := nextBest moves
    if nb.1 = NULLMV then ⟨none, α, searched, st⟩
    else
      match E.makeMove st.board nb.1 with
      | none => moveLoop E recf plyb f α β st nb.2 searched bestscore
      | some b' =>
        let r := recf (-β) (-α) { st with board := b' }
        let sc := -r.1
        let st2 := { r.2 with board := E.undoMove r.2.board nb.1 }
        if E.stopped st2.info then ⟨some 0, α, searched, st2⟩
        else
          if sc > bestscore then
            if sc > α then
              if sc ≥ β then
                ⟨some β, α, searched + 1, recordFailHigh st2 (searched + 1)⟩
              else
                moveLoop E recf plyb f sc β (pvUpdate st2 plyb nb.1) nb.2
                  (searched + 1) sc
            else
              moveLoop E recf plyb f α β st2 nb.2 (searched + 1) sc
          else
            moveLoop E recf plyb f α β st2 nb.2 (searched + 1) bestscore

/-- The quiescence move loop (src/search.cpp lines 306-338); release build,
so the DEBUG-only fail-high counters are absent. -/
def qLoop {B : Type} (E : Engine B)
    (recf : ℤ → ℤ → SState B → ℤ × SState B) :
    ℕ → ℤ → ℤ → SState B → List (ℕ × ℤ) → ℤ × SState B
  | 0, α, _, st, _ => (α, st)
  | f + 1, α, β, st, moves =>
    let nb := nextBest moves
    if nb.1 = NULLMV then (α, st)
    else
      match E.makeMove st.board nb.1 with
      | none => qLoop E recf f α β st nb.2
      | some b' =>
        let r := recf (-β) (-α) { st with board := b' }
        let sc := -r.1
        let st2 := { r.2 with board := E.undoMove r.2.board nb.1 }
        if E.stopped st2.info then (0, st2)
        else if sc ≥ β then (β, st2)
        else if sc > α then qLoop E recf f sc β st2 nb.2
        else qLoop E recf f α β st2 nb.2

/-- quiescence (src/search.cpp lines 265-341), fuel-indexed: node count,
seldepth update, stand-pat score cached on the stack, depth guard, fail-high
and PV-node window updates, then the noisy-move loop. -/
def quiescence {B : Type} (E : Engine B) :
    ℕ → ℤ → ℤ → SState B → ℤ × SState B
  | 0, _, _, st => (0, st)
  | f + 1, α, β, st =>
    let st := st.incNodes
    let plyb := E.ply st.board
    let st := if (plyb : ℤ) > st.info.seldepth
              then st.setSeldepth ((plyb : ℤ) - 1) else st
    let sc := E.evaluate st.board
    let st := st.setStackScore plyb sc
    if plyb ≥ MAX_DEPTH - 1 then (sc, st)
    else if sc ≥ β then (β, st)
    else
      let α' := if sc > α then sc else α
      let noisy := E.genNoisy st.board
      let scored := noisy.map (fun m => (m, E.scoreMovesQ st.board m))
      qLoop E (fun a b s => quiescence E f a b s) (noisy.length + 1) α' β st
        scored

/-- negamax (src/search.cpp lines 88-198), fuel-indexed.  In order: bind the
pv row and set its size to board->ply, delegate to quiescence at depth 0,
count the node, jittered draw score on repetition or fifty-move rule away
from the root, static evaluation at the depth cap, cache the static score,
generate and score the pseudolegal moves, run the move loop, and finally
the mate/stalemate score when no legal move was searched, else α. -/
def negamax {B : Type} (E : Engine B) :
    ℕ → ℤ → ℤ → ℕ → SState B → ℤ × SState B
  | 0, _, _, _, st => (0, st)
  | f + 1, α, β, depth, st =>
    let plyb := E.ply st.board
    let st := st.setPVSize plyb plyb
    if depth = 0 then quiescence E f α β st
    else
      let st := st.incNodes
      if plyb ≠ 0 ∧ (E.isRep st.board = true ∨ E.fifty st.board ≥ 100) then
        ((-2) + (st.info.nodes % 4 : ℕ), st)
      else if plyb ≥ MAX_DEPTH - 1 then (E.evaluate st.board, st)
      else
        let sc := E.evaluate st.board
        let st := st.setStackScore plyb sc
        let moves := E.genMoves st.board
        let killers := st.getKillers plyb
        let scored := moves.map (fun m => (m, E.scoreMovesN st.board m killers))
        let out := moveLoop E (fun a b s => negamax E f a b (depth - 1) s)
          plyb (moves.length + 1) α β st scored 0 (-oo)
        match out.early with
        | some r2 => (r2, out.st)
        | none =>
          if out.searched = 0 then
            (if E.inCheck out.st.board (E.turn out.st.board)
             then -oo + (plyb : ℤ) else 0, out.st)
          else (out.alpha, out.st)

/-- Modelled from the spec: searchinfo_t::clear (threads.h is not under
src/) zeroes the counters. -/
def Info.clearInfo : Info := ⟨0, 0, 0, 0⟩

/-- The pv-table clearing loop of init_search (src/search.cpp lines
234-236): rows 0 .. MAX_DEPTH-1 are cleared (the extra last row of pv_tb is
not). -/
def clearPVTable (pvtb : List PVLine) : List PVLine :=
  (List.range MAX_DEPTH).foldl (fun p i => p.set i emptyPVLine) pvtb

/-- init_search (src/search.cpp lines 222-251): history aging and ply reset
on the board, pv table cleared, info cleared, and the (buggy) stack-clearing
loop. -/
def init_search_full (b : Board) (_info : Info) (stack : List StackEntry)
    (pvtb : List PVLine) : SState Board :=
  { board := init_search_board b
    info := Info.clearInfo
    stack := clearStackLoop MAX_DEPTH stack
    pvtb := clearPVTable pvtb }

/-- pv_tb[0][0], the root best move read after a completed depth
(src/search.cpp line 383). -/
def pvRootMove {B : Type} (st : SState B) : ℕ :=
  (st.pvtb.getD 0 emptyPVLine).moves.getD 0 0

/-- The iterative-deepening loop of search (src/search.cpp lines 365-406):
`rem` depths remain, `d` is the current depth; each iteration runs negamax
over the full window, stores the score at stack[0], stops (keeping the best
move of the last completed depth) when search_stopped, else adopts
pv_tb[0][0]. -/
def idLoop (E : Engine Board) (fuel : ℕ) :
    ℕ → ℕ → SState Board → ℕ → SState Board × ℕ
  | 0, _, st, bm => (st, bm)
  | rem + 1, d, st, bm =>
    let r := negamax E fuel (-oo) oo d st
    let st1 := (r.2).setStackScore 0 r.1
    if E.stopped st1.info then (st1, bm)
    else idLoop E fuel rem (d + 1) st1 (pvRootMove st1)

/-- search (src/search.cpp lines 344-414): init_search, then iterative
deepening from depth 1 up to the depth limit; returns the final state and
the emitted best move. -/
def search_model (E : Engine Board) (fuel depthLimit : ℕ) (b : Board)
    (info0 : Info) (stack : List StackEntry) (pvtb : List PVLine) :
    SState Board × ℕ :=
  idLoop E fuel depthLimit 1 (init_search_full b info0 stack pvtb) NULLMV

/-! ## Board preservation lemmas

With the spec contract that undo_move reverses a successful make_move
(section 6.1), negamax and quiescence leave the board exactly as they found
it, since every state update other than make/undo touches only info, stack
or pv table. -/

/-- The section 6.1 contract: undo_move reverses a successful make_move. -/
def MakeUndoInverse {B : Type} (E : Engine B) : Prop :=
  ∀ b m b', E.makeMove b m = some b' → E.undoMove b' m = b

lemma SState.incNodes_board {B : Type} (st : SState B) :
    st.incNodes.board = st.board := rfl

lemma SState.setSeldepth_board {B : Type} (st : SState B) (d : ℤ) :
    (st.setSeldepth d).board = st.board := rfl

lemma SState.setStackScore_board {B : Type} (st : SState B) (i : ℕ) (sc : ℤ) :
    (st.setStackScore i sc).board = st.board := rfl

lemma SState.setPVSize_board {B : Type} (st : SState B) (i n : ℕ) :
    (st.setPVSize i n).board = st.board := rfl

lemma pvUpdate_board {B : Type} (st : SState B) (plyb mv : ℕ) :
    (pvUpdate st plyb mv).board = st.board := rfl

lemma recordFailHigh_board {B : Type} (st : SState B) (searched : ℕ) :
    (recordFailHigh st searched).board = st.board := rfl

lemma moveLoop_board {B : Type} (E : Engine B)
    (recf : ℤ → ℤ → SState B → ℤ × SState B)
    (hrec : ∀ a b s, ((recf a b s).2).board = s.board)
    (hinv : MakeUndoInverse E) (plyb : ℕ) :
    ∀ f α β (st : SState B) moves searched bestscore,
      ((moveLoop E recf plyb f α β st moves searched bestscore).st).board
        = st.board := by
  intro f
  induction f with
  | zero => intro α β st moves searched bestscore; rfl
  | succ f ih =>
    intro α β st moves searched bestscore
    unfold moveLoop
    by_cases h0 : (nextBest moves).1 = NULLMV
    · simp [h0]
    · simp only [h0, if_false, if_neg, not_false_iff]
      cases hm : E.makeMove st.board (nextBest moves).1 with
      | none => simpa using ih α β st (nextBest moves).2 searched bestscore
      | some b' =>
        have hb : ((recf (-β) (-α) { st with board := b' }).2).board = b' :=
          hrec _ _ _
        have hundo :
            E.undoMove ((recf (-β) (-α) { st with board := b' }).2).board
              (nextBest moves).1 = st.board := by
          rw [hb]; exact hinv _ _ _ hm
        simp only []
        split
        · simpa using hundo
        · split
          · split
            · split
              · simpa [recordFailHigh_board] using hundo
              · rw [ih]
                simpa [pvUpdate_board] using hundo
            · rw [ih]; simpa using hundo
          · rw [ih]; simpa using hundo

lemma qLoop_board {B : Type} (E : Engine B)
    (recf : ℤ → ℤ → SState B → ℤ × SState B)
    (hrec : ∀ a b s, ((recf a b s).2).board = s.board)
    (hinv : MakeUndoInverse E) :
    ∀ f α β (st : SState B) moves,
      ((qLoop E recf f α β st moves).2).board = st.board := by
  intro f
  induction f with
  | zero => intro α β st moves; rfl
  | succ f ih =>
    intro α β st moves
    unfold qLoop
    by_cases h0 : (nextBest moves).1 = NULLMV
    · simp [h0]
    · simp only [h0, if_false, if_neg, not_false_iff]
      cases hm : E.makeMove st.board (nextBest moves).1 with
      | none => simpa using ih α β st (nextBest moves).2
      | some b' =>
        have hb : ((recf (-β) (-α) { st with board := b' }).2).board = b' :=
          hrec _ _ _
        have hundo :
            E.undoMove ((recf (-β) (-α) { st with board := b' }).2).board
              (nextBest moves).1 = st.board := by
          rw [hb]; exact hinv _ _ _ hm
        simp only []
        split
        · simpa using hundo
        · split
          · simpa using hundo
          · split
            · rw [ih]; simpa using hundo
            · rw [ih]; simpa using hundo

lemma quiescence_board {B : Type} (E : Engine B) (hinv : MakeUndoInverse E) :
    ∀ f α β (st : SState B), ((quiescence E f α β st).2).board = st.board := by
  intro f
  induction f with
  | zero => intro α β st; rfl
  | succ f ih =>
    intro α β st
    unfold quiescence
    simp only []
    split
    all_goals try split
    all_goals try split
    all_goals try split
    all_goals
      first
        | rfl
        | (rw [qLoop_board E (fun a b s => quiescence E f a b s)
            (fun a b s => ih a b s) hinv]; rfl)

lemma negamax_board {B : Type} (E : Engine B) (hinv : MakeUndoInverse E) :
    ∀ f α β depth (st : SState B),
      ((negamax E f α β depth st).2).board = st.board := by
  intro f
  induction f with
  | zero => intro α β depth st; rfl
  | succ f ih =>
    intro α β depth st
    unfold negamax
    simp only []
    split
    · rw [quiescence_board E hinv]
      rfl
    · split
      · rfl
      · split
        · rfl
        · have hml := moveLoop_board E
            (fun a b s => negamax E f a b (depth - 1) s)
            (fun a b s => ih a b (depth - 1) s) hinv
          split
          · rw [hml]; rfl
          · split
            · rw [hml]; rfl
            · rw [hml]; rfl

lemma nextBestAux_mem (x : ℕ × ℤ) (l : List (ℕ × ℤ)) :
    (nextBestAux x l).1 ∈ x :: l := by
  induction l generalizing x with
  | nil => simp [nextBestAux]
  | cons y ys ih =>
    unfold nextBestAux
    by_cases h : y.2 > x.2
    · rw [if_pos h]
      have := ih y
      simp only [List.mem_cons] at this ⊢
      tauto
    · rw [if_neg h]
      have := ih x
      simp only [List.mem_cons] at this ⊢
      tauto

lemma nextBestAux_sub (x : ℕ × ℤ) (l : List (ℕ × ℤ)) :
    ∀ p ∈ (nextBestAux x l).2, p ∈ x :: l := by
  induction l generalizing x with
  | nil => simp [nextBestAux]
  | cons y ys ih =>
    intro p hp
    unfold nextBestAux at hp
    by_cases h : y.2 > x.2
    · rw [if_pos h] at hp
      simp only [List.mem_cons] at hp ⊢
      rcases hp with hp | hp
      · tauto
      · have := ih y p hp
        simp only [List.mem_cons] at this
        tauto
    · rw [if_neg h] at hp
      simp only [List.mem_cons] at hp ⊢
      rcases hp with hp | hp
      · tauto
      · have := ih x p hp
        simp only [List.mem_cons] at this
        tauto

lemma moveLoop_allIllegal {B : Type} (E : Engine B)
    (recf : ℤ → ℤ → SState B → ℤ × SState B) (plyb : ℕ) :
    ∀ f moves α β (st : SState B) searched bestscore,
      (∀ p ∈ moves, E.makeMove st.board p.1 = none) →
      moveLoop E recf plyb f α β st moves searched bestscore
        = ⟨none, α, searched, st⟩ := by
  intro f
  induction f with
  | zero => intro moves α β st searched bestscore _; rfl
  | succ f ih =>
    intro moves α β st searched bestscore h
    unfold moveLoop
    by_cases h0 : (nextBest moves).1 = NULLMV
    · simp [h0]
    · cases moves with
      | nil => exact absurd rfl h0
      | cons x xs =>
        have hmk : E.makeMove st.board (nextBest (x :: xs)).1 = none :=
          h _ (nextBestAux_mem x xs)
        have hsub : ∀ p ∈ (nextBest (x :: xs)).2,
            E.makeMove st.board p.1 = none :=
          fun p hp => h p (nextBestAux_sub x xs p hp)
        simp only [h0, if_neg, not_false_iff, hmk]
        exact ih _ α β st searched bestscore hsub

lemma idLoop_board (E : Engine Board) (hinv : MakeUndoInverse E) (fuel : ℕ) :
    ∀ rem d (st : SState Board) bm,
      ((idLoop E fuel rem d st bm).1).board = st.board := by
  intro rem
  induction rem with
  | zero => intro d st bm; rfl
  | succ rem ih =>
    intro d st bm
    unfold idLoop
    simp only []
    split
    · rw [SState.setStackScore_board, negamax_board E hinv]
    · rw [ih]
      rw [SState.setStackScore_board, negamax_board E hinv]

/-! ## Claim theorems -/

/-- C8: In negamax, if no legal move was played at a node (every generated
pseudolegal move is rejected by make_move), the returned score is
-MATE + ply when the side to move is in check and 0 (stalemate) otherwise.
The hypotheses put the call on the move-loop path: positive depth and fuel,
no repetition/fifty-move draw away from the root, and ply below the depth
cap. -/
theorem negamax_no_legal_move {B : Type} (E : Engine B) (f depth : ℕ)
    (α β : ℤ) (st : SState B)
    (hf : 1 ≤ f) (hd : 1 ≤ depth)
    (hrep : E.ply st.board = 0 ∨
      (E.isRep st.board = false ∧ E.fifty st.board < 100))
    (hply : E.ply st.board < MAX_DEPTH - 1)
    (hmoves : ∀ m ∈ E.genMoves st.board, E.makeMove st.board m = none) :
    (negamax E f α β depth st).1 =
      if E.inCheck st.board (E.turn st.board)
      then -oo + (E.ply st.board : ℤ) else 0 := by
  obtain ⟨g, rfl⟩ : ∃ g, f = g + 1 := ⟨f - 1, by omega⟩
  unfold negamax
  simp only []
  rw [if_neg (by omega : ¬ depth = 0)]
  rw [if_neg (by
    rcases hrep with h | ⟨h1, h2⟩
    · intro hc
      exact hc.1 (by simpa [SState.setPVSize_board] using h)
    · intro hc
      rcases hc.2 with hc2 | hc2
      · rw [show ((st.setPVSize (E.ply st.board) (E.ply st.board)).incNodes).board = st.board from rfl] at hc2
        rw [h1] at hc2
        cases hc2
      · rw [show ((st.setPVSize (E.ply st.board) (E.ply st.board)).incNodes).board = st.board from rfl] at hc2
        omega)]
  rw [if_neg (by omega : ¬ E.ply st.board ≥ MAX_DEPTH - 1)]
  rw [moveLoop_allIllegal E _ _ _ _ _ _ _ _ _ (by
    intro p hp
    simp only [List.mem_map] at hp
    obtain ⟨m, hm, rfl⟩ := hp
    exact hmoves m hm)]
  rfl

/-- Concrete engine used by the C8 witness: one pseudolegal move that is
always illegal, side to move in check. -/
def c8E : Engine ℕ where
  genMoves := fun _ => [3]
  genNoisy := fun _ => []
  makeMove := fun _ _ => none
  undoMove := fun b _ => b
  inCheck := fun _ _ => true
  isRep := fun _ => false
  evaluate := fun _ => 0
  turn := fun _ => 0
  ply := fun _ => 0
  fifty := fun _ => 0
  scoreMovesN := fun _ _ _ => 0
  scoreMovesQ := fun _ _ => 0
  stopped := fun _ => false

/-- Concrete search state used by the C8 witness. -/
def c8St : SState ℕ := ⟨0, ⟨0, 0, 0, 0⟩, [], []⟩

/-- Witness for C8 at a concrete engine and state: the hypotheses hold and
the returned score is the mate score -oo + 0. -/
theorem negamax_no_legal_move_witness :
    ((1 : ℕ) ≤ 1 ∧ (1 : ℕ) ≤ 1 ∧
      (c8E.ply c8St.board = 0 ∨
        (c8E.isRep c8St.board = false ∧ c8E.fifty c8St.board < 100)) ∧
      c8E.ply c8St.board < MAX_DEPTH - 1 ∧
      (∀ m ∈ c8E.genMoves c8St.board, c8E.makeMove c8St.board m = none)) ∧
    (negamax c8E 1 (-oo) oo 1 c8St).1 =
      if c8E.inCheck c8St.board (c8E.turn c8St.board)
      then -oo + (c8E.ply c8St.board : ℤ) else 0 := by
  refine ⟨⟨le_refl 1, le_refl 1, Or.inl rfl, by decide, ?_⟩, ?_⟩
  · intro m _
    rfl
  · exact negamax_no_legal_move c8E 1 1 (-oo) oo c8St
      (le_refl 1) (le_refl 1) (Or.inl rfl) (by decide)
      (fun m _ => rfl)

/-- C9: After reset(), a subsequent allocate(k) that fits returns an address
equal to the first allocation after a fresh construction of an arena with
the same capacity (addresses as offsets from the buffer base). -/
theorem arena_reset_allocate_eq_fresh (a : Arena) (k p : ℕ) (a1 : Arena)
    (h : (freshArena a.m_capacity).allocate k = some (p, a1)) :
    ((a.reset).allocate k).map Prod.fst = some p := by
  have hr : a.reset = freshArena a.m_capacity := rfl
  rw [hr, h]
  rfl

/-- Witness for C9 at capacity 64 and request 16: both the fresh arena and
the reset arena hand out offset 0. -/
theorem arena_reset_allocate_eq_fresh_witness :
    ((freshArena (Arena.mk 5 64).m_capacity).allocate 16
      = some (0, Arena.mk 16 64)) ∧
    (((Arena.mk 5 64).reset).allocate 16).map Prod.fst = some 0 :=
  ⟨by decide, arena_reset_allocate_eq_fresh (Arena.mk 5 64) 16 0
    (Arena.mk 16 64) (by decide)⟩

/-- C10: For every sequence of allocate/reset calls starting from a fresh
arena, the cursor never exceeds the capacity, and every successful allocate
returns an offset aligned to alignof(std::max_align_t) whose requested
region lies entirely inside the buffer. -/
theorem arena_cursor_invariant (cap k : ℕ) (ops : List ArenaOp) :
    ((freshArena cap).run ops).m_size ≤ cap ∧
    ∀ p a', ((freshArena cap).run ops).allocate k = some (p, a') →
      p % ALIGN = 0 ∧ p + k ≤ cap ∧ a'.m_size ≤ cap := by
  have hcap : ((freshArena cap).run ops).m_capacity = cap :=
    Arena.run_capacity ops (freshArena cap)
  have hsz : ((freshArena cap).run ops).m_size ≤ cap := by
    have h1 := Arena.run_size_le ops (freshArena cap) (by simp [freshArena])
    rw [hcap] at h1
    exact h1
  refine ⟨hsz, ?_⟩
  intro p a' h
  obtain ⟨hp, hsz', hcap', hle⟩ := Arena.allocate_some h
  rw [hcap] at hle
  have hg := alignUp_ge ((freshArena cap).run ops).m_size
  refine ⟨hp ▸ alignUp_mod _, ?_, ?_⟩
  · rw [hp]
    omega
  · omega

/-- Witness for C10 after one 24-byte allocation on a 64-byte arena. -/
theorem arena_cursor_invariant_witness :
    ((freshArena 64).run [ArenaOp.alloc 24]).m_size ≤ 64 ∧
    ∀ p a', ((freshArena 64).run [ArenaOp.alloc 24]).allocate 8
        = some (p, a') →
      p % ALIGN = 0 ∧ p + 8 ≤ 64 ∧ a'.m_size ≤ 64 :=
  arena_cursor_invariant 64 8 [ArenaOp.alloc 24]

/-- C4: After one backprop pass with reward r along the ancestor chain (the
expanded node first, the root last), every ancestor's visits grow by exactly
1 and its total_reward changes by (-1)^(k+1) * r at chain position k — hence
by |r| in absolute value, with the sign flipped before each application so
that signs alternate up the chain. -/
theorem backprop_conservation (r : ℚ) (path : List NodeStats) (k : ℕ)
    (hk : k < path.length) :
    ((backprop r path).getD k ⟨0, 0⟩).visits
        = (path.getD k ⟨0, 0⟩).visits + 1 ∧
    ((backprop r path).getD k ⟨0, 0⟩).total_reward
        = (path.getD k ⟨0, 0⟩).total_reward + (-1) ^ (k + 1) * r ∧
    |((backprop r path).getD k ⟨0, 0⟩).total_reward
        - (path.getD k ⟨0, 0⟩).total_reward| = |r| := by
  rw [backprop_getD r path k hk]
  refine ⟨rfl, rfl, ?_⟩
  show |(path.getD k ⟨0, 0⟩).total_reward + (-1) ^ (k + 1) * r
        - (path.getD k ⟨0, 0⟩).total_reward| = |r|
  rw [add_sub_cancel_left, abs_mul, abs_pow, abs_neg, abs_one, one_pow,
    one_mul]

/-- Concrete ancestor chain for the C4 witness. -/
def c4path : List NodeStats := [⟨2, 1/2⟩, ⟨3, 0⟩]

/-- Witness for C4 on a two-node chain at position 1 (the parent): visits
3 → 4, total_reward 0 → 1, |change| = 1. -/
theorem backprop_conservation_witness :
    (1 < c4path.length) ∧
    (((backprop 1 c4path).getD 1 ⟨0, 0⟩).visits
        = (c4path.getD 1 ⟨0, 0⟩).visits + 1 ∧
    ((backprop 1 c4path).getD 1 ⟨0, 0⟩).total_reward
        = (c4path.getD 1 ⟨0, 0⟩).total_reward + (-1) ^ (1 + 1) * 1 ∧
    |((backprop 1 c4path).getD 1 ⟨0, 0⟩).total_reward
        - (c4path.getD 1 ⟨0, 0⟩).total_reward| = |(1 : ℚ)|) :=
  ⟨by decide, backprop_conservation 1 c4path 1 (by decide)⟩

/-- C3: When the arena cannot supply space for one more node (has_space is
false), expand leaves the node, the arena, the board and the info counters
exactly as they were and creates no child; the surrounding search loop has
no abort path, so selection, simulation and backpropagation continue on the
existing tree. -/
theorem expand_arena_oom {B : Type} (C : Chess B) (pol : List ℕ → B → ℕ)
    (nd : NodeLite) (ar : Arena) (s : B) (info : MInfo)
    (h : ar.has_space sizeofNode = false) :
    expand C pol nd ar s info = (nd, ar, s, info, none) := by
  unfold expand
  split
  · rfl
  · rw [h]
    rfl

/-- Head-of-list policy used by the concrete witnesses (a stand-in for
random_policy, which always returns some element of the list). -/
def polHead : List ℕ → ℕ → ℕ := fun l _ => l.headD 0

/-- Trivial chess oracle over naturals used by the C3 witness. -/
def c3C : Chess ℕ where
  genMoves := fun _ => [1]
  makeMove := fun s _ => some (s + 1)
  inCheck := fun _ _ => false
  turn := fun s => s % 2
  ply := fun s => s
  evaluate := fun _ => 0
  wp := fun _ => 1/2

/-- Witness for C3: a 4-byte arena cannot fit a node; expand on a
non-terminal node with an untried move changes nothing. -/
theorem expand_arena_oom_witness :
    ((Arena.mk 0 4).has_space sizeofNode = false) ∧
    expand c3C polHead ⟨[1], 0⟩ (Arena.mk 0 4) 0 ⟨0, 0⟩
      = (⟨[1], 0⟩, Arena.mk 0 4, 0, ⟨0, 0⟩, none) :=
  ⟨by decide, expand_arena_oom c3C polHead ⟨[1], 0⟩ (Arena.mk 0 4) 0 ⟨0, 0⟩
    (by decide)⟩

/-- C2 (code bug): at a terminal root the tree never acquires children
(expand returns the node unchanged), and best_child(false) over the empty
children list leaves its best pointer null — MCTS_Search then dereferences
the null result of root->best_child(false) instead of emitting bestmove
NULL_MOVE; the in-code assert(best != nullptr) fails in debug builds. -/
theorem best_child_terminal_root_null :
    bestChildExploit [] = none ∧
    (NodeLite.isTerminal ⟨[], 0⟩ = true) ∧
    expand c3C polHead ⟨[], 0⟩ (freshArena 1024) 0 ⟨0, 0⟩
      = (⟨[], 0⟩, freshArena 1024, 0, ⟨0, 0⟩, none) := by
  refine ⟨rfl, by decide, ?_⟩
  rfl

/-- Chess oracle for the C5 counterexample: from state 0 (side 0 to move)
the only pseudolegal move 5 is legal and leads to state 1 (side 1 to move),
where the only pseudolegal move 7 is illegal; side 1 is in check in state 1
(side 0 mated side 1 in one rollout ply). -/
def c5C : Chess ℕ where
  genMoves := fun s => if s = 0 then [5] else [7]
  makeMove := fun s m => if s = 0 && m = 5 then some 1 else none
  inCheck := fun s side => s = 1 && side = 1
  turn := fun s => s
  ply := fun s => s
  evaluate := fun _ => 0
  wp := fun _ => 1/2

/-- C5 counterexample: the rollout ends with no legal move at a terminal
where the side to move (side 1) is in check, yet simulate returns +1, not
the -1 the claim predicts — the check tests use the side to move at
simulate's entry, not at the terminal. -/
theorem simulate_terminal_side_counterexample :
    (rolloutLoop c5C polHead ROLLOUT_BUDGET 0).2.1 = true ∧
    c5C.inCheck (rolloutLoop c5C polHead ROLLOUT_BUDGET 0).1
      (c5C.turn (rolloutLoop c5C polHead ROLLOUT_BUDGET 0).1) = true ∧
    simulate c5C polHead 0 = 1 ∧ (1 : ℚ) ≠ -1 := by
  refine ⟨by decide, by decide, ?_, by decide⟩
  rfl

/-- C5 (amended): when the rollout ends because no legal move is available,
simulate returns -1 if the side to move at simulate's entry is in check at
the terminal position, +1 if the other side is in check there, and 0
otherwise. -/
theorem simulate_terminal_entry_side {B : Type} (C : Chess B)
    (pol : List ℕ → B → ℕ) (s : B)
    (h : (rolloutLoop C pol ROLLOUT_BUDGET s).2.1 = true) :
    simulate C pol s =
      (if C.inCheck (rolloutLoop C pol ROLLOUT_BUDGET s).1 (C.turn s) then -1
       else if C.inCheck (rolloutLoop C pol ROLLOUT_BUDGET s).1
         (C.turn s ^^^ 1) then 1
       else 0) := by
  unfold simulate
  rcases hr : rolloutLoop C pol ROLLOUT_BUDGET s with ⟨t, term, k⟩
  rw [hr] at h
  simp only at h
  subst h
  simp only [hr]

/-- Witness for C5 (amended) at the concrete oracle of the counterexample:
the terminal hypothesis holds and the reward matches the entry-side rule. -/
theorem simulate_terminal_entry_side_witness :
    (rolloutLoop c5C polHead ROLLOUT_BUDGET 0).2.1 = true ∧
    simulate c5C polHead 0 =
      (if c5C.inCheck (rolloutLoop c5C polHead ROLLOUT_BUDGET 0).1
         (c5C.turn 0) then -1
       else if c5C.inCheck (rolloutLoop c5C polHead ROLLOUT_BUDGET 0).1
         (c5C.turn 0 ^^^ 1) then 1
       else 0) :=
  ⟨by decide, simulate_terminal_entry_side c5C polHead 0 (by decide)⟩

/-- Chess oracle for the C6 counterexample: every state has one legal move. -/
def c6C : Chess ℕ where
  genMoves := fun _ => [1]
  makeMove := fun s _ => some (s + 1)
  inCheck := fun _ _ => false
  turn := fun s => s % 2
  ply := fun s => s
  evaluate := fun _ => 0
  wp := fun _ => 1/2

/-- C6 counterexample: with legal moves always available, one call to
simulate plays ROLLOUT_BUDGET + 1 = 4 legal plies (the do-while tests the
budget after playing), exceeding the claimed bound ROLLOUT_BUDGET = 3. -/
theorem simulate_budget_counterexample :
    simulatePlies c6C polHead 0 = ROLLOUT_BUDGET + 1 ∧
    ¬(simulatePlies c6C polHead 0 ≤ ROLLOUT_BUDGET) := by
  refine ⟨?_, by decide⟩
  rfl

/-- C6 (amended): one call to simulate plays at most ROLLOUT_BUDGET + 1
pseudo-random legal plies (aborting early when no legal move remains). -/
theorem simulate_rollout_budget_bound {B : Type} (C : Chess B)
    (pol : List ℕ → B → ℕ) (s : B) :
    simulatePlies C pol s ≤ ROLLOUT_BUDGET + 1 :=
  rolloutLoop_plies_le C pol ROLLOUT_BUDGET s

/-- Concrete entry stack for C7: entry 1 carries a stale killer move 5 and
score 7. -/
def c7Stack : List StackEntry :=
  ⟨0, 0, 0⟩ :: ⟨5, 0, 7⟩ :: List.replicate 63 ⟨0, 0, 0⟩

/-- C7 (code bug): the stack-clearing loop of init_search iterates
MAX_DEPTH times but writes through the unindexed base pointer, so entry 1
keeps its stale killer move and score — its killer slot is not NULL_MOVE
after init_search, contradicting the claim for index 1 < MAX_DEPTH. -/
theorem init_search_stack_not_cleared :
    1 < MAX_DEPTH ∧
    (clearStackLoop MAX_DEPTH c7Stack).getD 1 ⟨0, 0, 0⟩
      = (⟨5, 0, 7⟩ : StackEntry) ∧
    ((clearStackLoop MAX_DEPTH c7Stack).getD 1 ⟨0, 0, 0⟩).killer0 ≠ NULLMV ∧
    ((clearStackLoop MAX_DEPTH c7Stack).getD 1 ⟨0, 0, 0⟩).score ≠ 0 := by
  refine ⟨by decide, ?_, by decide, by decide⟩
  rfl

/-- Concrete entry board for C1: the ply counter is 5 on entry. -/
def c1Board : Board := ⟨0, 5, 0, [16], 0⟩

/-- C1 counterexample: MCTS_Search zeroes board->ply before snapshotting,
so a position entering with ply = 5 is not byte-identical after the call. -/
theorem mcts_position_not_preserved :
    MCTS_Search_board c1Board (fun _ b => b) 1 ≠ c1Board := by
  decide

/-- C1 (amended): after MCTS_Search the position equals its entry value
with ply reset to 0 (whatever the loop body did to the working copy); after
search it additionally has every history-heuristic entry divided by 16 —
byte-for-byte preservation holds only for the remaining fields. -/
theorem position_after_search (E : Engine Board) (fuel depthLimit : ℕ)
    (b : Board) (info : Info) (stack : List StackEntry) (pvtb : List PVLine)
    (mutf : ℕ → Board → Board) (iters : ℕ)
    (hinv : MakeUndoInverse E) :
    MCTS_Search_board b mutf iters = { b with ply := 0 } ∧
    ((search_model E fuel depthLimit b info stack pvtb).1).board
      = init_search_board b := by
  constructor
  · unfold MCTS_Search_board
    rw [mctsBoardLoop_eq]
    split <;> rfl
  · unfold search_model
    rw [idLoop_board E hinv]
    rfl

/-- Trivial engine over the concrete Board used by the C1 witness: no
pseudolegal moves, every make_move rejected. -/
def trivEngineB : Engine Board where
  genMoves := fun _ => []
  genNoisy := fun _ => []
  makeMove := fun _ _ => none
  undoMove := fun b _ => b
  inCheck := fun _ _ => false
  isRep := fun _ => false
  evaluate := fun _ => 0
  turn := fun b => b.turn
  ply := fun b => b.ply
  fifty := fun b => b.fiftyMove
  scoreMovesN := fun _ _ _ => 0
  scoreMovesQ := fun _ _ => 0
  stopped := fun _ => false

/-- Witness for C1 (amended) on the concrete entry board: the make/undo
contract holds (vacuously) and both engines leave the board at the stated
values. -/
theorem position_after_search_witness :
    MakeUndoInverse trivEngineB ∧
    (MCTS_Search_board c1Board (fun _ b => b) 2 = { c1Board with ply := 0 } ∧
     ((search_model trivEngineB 1 1 c1Board ⟨0, 0, 0, 0⟩ [] []).1).board
       = init_search_board c1Board) :=
  ⟨fun _ _ _ h => Option.noConfusion h,
   position_after_search trivEngineB 1 1 c1Board ⟨0, 0, 0, 0⟩ [] []
     (fun _ b => b) 2 (fun _ _ _ h => Option.noConfusion h)⟩

end Lishex
